import Mathlib

/-
  Verification development for the mobile-use task-execution core.

  Shallow embedding of:
  - the Android view processor (androidViewProcessor.ts, src/unnamed/part_005 first half),
  - the iOS view processor (iosViewProcessor.ts, src/unnamed/part_005 second half),
  - the action registry and dispatch (src/lib/agent/actions/builder.ts),
  - the element lookup and click/input primitives (src/lib/mobile/context.ts),
  - the Navigator multi-action loop and done computation
    (src/lib/agent/agents/navigator.ts).

  Conventions of the embedding:
  - XML parsing (the external xmldom library) is not modelled; functions that in
    the source receive an XML string here receive the already-parsed root
    element (RawElement: tag name, attribute list, element children; text nodes
    are not represented because elementToNode skips all non-element nodes).
  - JavaScript NaN arising from parseInt is modelled by Option Int (none = NaN)
    in the iOS bounds; Android bounds come from a digit-matching regex and are
    always numeric, so they are plain Int.
  - Thrown exceptions are modelled with Except; undefined lookups with Option.
  - Device-adapter interactions that change device state (taps, key input,
    swipes, scroll queries) are recorded as an explicit DeviceCall trace;
    logging, event emission and fixed pauses are not modelled.
  - Fractional JS arithmetic on coordinates is modelled exactly with Rat.
-/

namespace MobileUse

/-- First-position match of a pattern against the front of a text,
used to build the substring test corresponding to String.prototype.includes. -/
def leadMatch : List Char → List Char → Bool
  | [], _ => true
  | _ :: _, [] => false
  | a :: as, b :: bs => a == b && leadMatch as bs

/-- Helper scanning every start position for the pattern. -/
def strContainsAux (pat : List Char) : List Char → Bool
  | [] => leadMatch pat []
  | c :: rest => leadMatch pat (c :: rest) || strContainsAux pat rest

/-- Model of JavaScript String.prototype.includes(pattern). -/
def strContains (s pat : String) : Bool :=
  strContainsAux pat.toList s.toList

/-- Maximal run of decimal digits at the front of a character list, with its
numeric value; none when the first character is not a digit.  Models one
greedy regex group of digits. -/
def takeDigits (cs : List Char) : Option (Nat × List Char) :=
  let ds := cs.takeWhile Char.isDigit
  if ds.isEmpty then none
  else some (ds.foldl (fun a c => a * 10 + (c.toNat - 48)) 0, cs.dropWhile Char.isDigit)

/-- Consume one expected literal character. -/
def expectChar (c : Char) : List Char → Option (List Char)
  | x :: rest => if x == c then some rest else none
  | [] => none

/-- Match the regex pattern of an Android bounds string,
two bracketed coordinate pairs, at the current position. -/
def matchBoundsAt (cs : List Char) : Option (Nat × Nat × Nat × Nat) := do
  let cs ← expectChar '[' cs
  let (x1, cs) ← takeDigits cs
  let cs ← expectChar ',' cs
  let (y1, cs) ← takeDigits cs
  let cs ← expectChar ']' cs
  let cs ← expectChar '[' cs
  let (x2, cs) ← takeDigits cs
  let cs ← expectChar ',' cs
  let (y2, cs) ← takeDigits cs
  let _ ← expectChar ']' cs
  pure (x1, y1, x2, y2)

/-- Regex search: first position where the bounds pattern matches. -/
def searchBounds : List Char → Option (Nat × Nat × Nat × Nat)
  | [] => none
  | c :: rest =>
    match matchBoundsAt (c :: rest) with
    | some r => some r
    | none => searchBounds rest

/-- Attribute lookup in a DOM-style attribute list: the value of the first
entry with the given name.  Models element.getAttribute and indexing a
Record of attributes (none models null and undefined). -/
def lookupAttr (attrs : List (String × String)) (k : String) : Option String :=
  (attrs.find? (fun p => p.1 == k)).map (fun p => p.2)

/-- JavaScript truthiness of a string-valued attribute:
present and not the empty string. -/
def attrTruthy (attrs : List (String × String)) (k : String) : Bool :=
  match lookupAttr attrs k with
  | some v => v != ""
  | none => false

/-- A parsed XML element: tag name, attributes in document order, and element
children (the source only recurses into childNodes with nodeType 1). -/
inductive RawElement where
  | mk (name : String) (attributes : List (String × String)) (children : List RawElement)

def RawElement.name : RawElement → String
  | .mk n _ _ => n

def RawElement.attributes : RawElement → List (String × String)
  | .mk _ a _ => a

def RawElement.children : RawElement → List RawElement
  | .mk _ _ c => c

namespace Android

/-- Rectangle computed from an Android bounds attribute:
x1, y1 and the differences x2 - x1, y2 - y1. -/
structure Bounds where
  x : Int
  y : Int
  width : Int
  height : Int
deriving DecidableEq, Repr

/-- List of meaningful attributes preserved during Android optimization. -/
def MEANINGFUL_ATTRIBUTES : List String :=
  ["text", "resource-id", "content-desc", "class", "package", "checkable",
   "checked", "clickable", "enabled", "focusable", "focused", "scrollable",
   "long-clickable", "password", "selected"]

/-- parseBounds: extract a rectangle from a bounds string; the source applies
the regex of two bracketed pairs and subtracts the corners.  The Option
argument models the undefined produced by a missing or empty attribute. -/
def parseBounds (boundsStr : Option String) : Option Bounds :=
  match boundsStr with
  | none => none
  | some s =>
    match searchBounds s.toList with
    | none => none
    | some (x1, y1, x2, y2) =>
      some ⟨(x1 : Int), (y1 : Int), (x2 : Int) - (x1 : Int), (y2 : Int) - (y1 : Int)⟩

/-- The canonical Android node produced by elementToNode. -/
inductive ONode where
  | mk (name : String) (attributes : List (String × String)) (children : List ONode)
       (bounds : Option Bounds) (isVisible : Bool) (isInteractive : Bool)

def ONode.name : ONode → String
  | .mk n _ _ _ _ _ => n

def ONode.attributes : ONode → List (String × String)
  | .mk _ a _ _ _ _ => a

def ONode.children : ONode → List ONode
  | .mk _ _ c _ _ _ => c

def ONode.bounds : ONode → Option Bounds
  | .mk _ _ _ b _ _ => b

def ONode.isVisible : ONode → Bool
  | .mk _ _ _ _ v _ => v

def ONode.isInteractive : ONode → Bool
  | .mk _ _ _ _ _ i => i

mutual

/-- elementToNode: keep only allow-listed attributes, parse bounds, compute
visibility (positive geometry) and interactivity (capability flags), and
recurse into element children. -/
def elementToNode : RawElement → ONode
  | .mk name attrs children =>
    let kept := attrs.filter (fun p => MEANINGFUL_ATTRIBUTES.contains p.1)
    let bounds := parseBounds
      (match lookupAttr attrs "bounds" with
       | some s => if s == "" then none else some s
       | none => none)
    let isVisible :=
      match bounds with
      | some b => decide (0 < b.width) && decide (0 < b.height)
      | none => false
    let isInteractive :=
      lookupAttr kept "clickable" == some "true"
      || lookupAttr kept "focusable" == some "true"
      || lookupAttr kept "long-clickable" == some "true"
    ONode.mk name kept (elementToNodeList children) bounds isVisible isInteractive

def elementToNodeList : List RawElement → List ONode
  | [] => []
  | e :: rest => elementToNode e :: elementToNodeList rest

end

/-- The invisibility skip of optimizeNode: bounds are present with
non-positive width or height. -/
def boundsInvisible (bounds : Option Bounds) : Bool :=
  match bounds with
  | some b => decide (b.width ≤ 0) || decide (b.height ≤ 0)
  | none => false

/-- The system-UI skip of optimizeNode: a truthy resource-id containing
status_bar_container or navigation_bar. -/
def sysUISkip (attrs : List (String × String)) : Bool :=
  match lookupAttr attrs "resource-id" with
  | some rid =>
    rid != "" && (strContains rid "status_bar_container" || strContains rid "navigation_bar")
  | none => false

/-- Some kept attribute has a value other than the empty string,
the string false, or the string null. -/
def hasMeaningfulAttrs (attrs : List (String × String)) : Bool :=
  attrs.any (fun p => p.2 != "" && p.2 != "false" && p.2 != "null")

mutual

/-- optimizeNode: drop invisible and system-UI nodes, optimize children,
then promote a single surviving child of a meaningless node and drop a
childless meaningless node. -/
def optimizeNode : ONode → Option ONode
  | .mk name attrs children bounds isVisible isInteractive =>
    if boundsInvisible bounds then none
    else if sysUISkip attrs then none
    else
      let optimizedChildren := optimizeChildren children
      match hasMeaningfulAttrs attrs, optimizedChildren with
      | false, [c] => some c
      | false, [] => none
      | _, _ => some (.mk name attrs optimizedChildren bounds isVisible isInteractive)

def optimizeChildren : List ONode → List ONode
  | [] => []
  | c :: rest =>
    match optimizeNode c with
    | some c2 => c2 :: optimizeChildren rest
    | none => optimizeChildren rest

end

/-- The selection test of extractInteractiveElements: interactive or with
truthy text, and visible. -/
def extractCond (n : ONode) : Bool :=
  (n.isInteractive || attrTruthy n.attributes "text") && n.isVisible

mutual

/-- extractInteractiveElements: pre-order collection of visible nodes that are
interactive or carry text. -/
def extractInteractiveElements : ONode → List ONode
  | n@(.mk _ _ children _ _ _) =>
    (if extractCond n then [n] else []) ++ extractList children

def extractList : List ONode → List ONode
  | [] => []
  | c :: rest => extractInteractiveElements c ++ extractList rest

end

/-- processPageSource, downstream of the external XML parser: convert the root
element, optimize, fail when the whole tree collapses, else extract the
interactive elements. -/
def processPageSource (root : RawElement) : Except String (List ONode) :=
  match optimizeNode (elementToNode root) with
  | none => .error "Optimization resulted in an empty tree"
  | some optimizedRoot => .ok (extractInteractiveElements optimizedRoot)

end Android

namespace IOS

/-- Result of JavaScript parseInt: none models NaN. -/
abbrev JsNum := Option Int

/-- Numeric value of a maximal digit run, none when there is no digit. -/
def digitsVal (cs : List Char) : Option Nat :=
  let ds := cs.takeWhile Char.isDigit
  if ds.isEmpty then none
  else some (ds.foldl (fun a c => a * 10 + (c.toNat - 48)) 0)

/-- Model of JavaScript parseInt(s, 10): skip leading whitespace, optional
sign, then a maximal digit run; NaN (none) when no digit follows. -/
def parseIntJS (s : String) : JsNum :=
  let cs := s.toList.dropWhile (fun c => c == ' ' || c == '\t' || c == '\n' || c == '\r')
  match cs with
  | '-' :: rest => (digitsVal rest).map (fun n => -(n : Int))
  | '+' :: rest => (digitsVal rest).map (fun n => (n : Int))
  | rest => (digitsVal rest).map (fun n => (n : Int))

/-- JavaScript comparison v > 0, false on NaN. -/
def jsGt0 : JsNum → Bool
  | some n => decide (0 < n)
  | none => false

/-- JavaScript comparison v <= 0, false on NaN. -/
def jsLe0 : JsNum → Bool
  | some n => decide (n ≤ 0)
  | none => false

/-- Rectangle read from the x, y, width, height attributes of an iOS element. -/
structure Bounds where
  x : JsNum
  y : JsNum
  width : JsNum
  height : JsNum
deriving DecidableEq, Repr

/-- List of meaningful attributes for iOS elements. -/
def MEANINGFUL_ATTRIBUTES : List String :=
  ["name", "label", "value", "type", "enabled", "visible", "accessible",
   "selected", "focused", "x", "y", "width", "height"]

/-- parseBounds: read the four geometry attributes from the element; a missing
or empty attribute (falsy in the source) yields undefined, otherwise each
value goes through parseInt. -/
def parseBounds (attrs : List (String × String)) : Option Bounds :=
  match lookupAttr attrs "x", lookupAttr attrs "y",
        lookupAttr attrs "width", lookupAttr attrs "height" with
  | some x, some y, some w, some h =>
    if x == "" || y == "" || w == "" || h == "" then none
    else some ⟨parseIntJS x, parseIntJS y, parseIntJS w, parseIntJS h⟩
  | _, _, _, _ => none

/-- The known interactive XCUIElementType tags. -/
def interactiveTypes : List String :=
  ["XCUIElementTypeButton", "XCUIElementTypeTextField", "XCUIElementTypeSecureTextField",
   "XCUIElementTypeSearchField", "XCUIElementTypeSwitch", "XCUIElementTypeSlider",
   "XCUIElementTypeSegmentedControl", "XCUIElementTypePicker", "XCUIElementTypePickerWheel",
   "XCUIElementTypeLink", "XCUIElementTypeCell", "XCUIElementTypeTabBar",
   "XCUIElementTypeNavigationBar", "XCUIElementTypeToolbar"]

/-- isIOSInteractiveType: falsy type gives false, else membership in the
known interactive types. -/
def isIOSInteractiveType (ty : Option String) : Bool :=
  match ty with
  | none => false
  | some t => if t == "" then false else interactiveTypes.contains t

/-- The canonical iOS node produced by elementToNode. -/
inductive ONode where
  | mk (name : String) (attributes : List (String × String)) (children : List ONode)
       (bounds : Option Bounds) (isVisible : Bool) (isInteractive : Bool)

def ONode.name : ONode → String
  | .mk n _ _ _ _ _ => n

def ONode.attributes : ONode → List (String × String)
  | .mk _ a _ _ _ _ => a

def ONode.children : ONode → List ONode
  | .mk _ _ c _ _ _ => c

def ONode.bounds : ONode → Option Bounds
  | .mk _ _ _ b _ _ => b

def ONode.isVisible : ONode → Bool
  | .mk _ _ _ _ v _ => v

def ONode.isInteractive : ONode → Bool
  | .mk _ _ _ _ _ i => i

mutual

/-- elementToNode for iOS: keep allow-listed attributes, read geometry from
the coordinate attributes, compute visibility (positive geometry and the
visible attribute, which alone decides when geometry is absent) and
interactivity (enabled, accessible or a known interactive type). -/
def elementToNode : RawElement → ONode
  | .mk name attrs children =>
    let kept := attrs.filter (fun p => MEANINGFUL_ATTRIBUTES.contains p.1)
    let bounds := parseBounds attrs
    let isVisible :=
      match bounds with
      | some b => jsGt0 b.width && jsGt0 b.height && (lookupAttr kept "visible" != some "false")
      | none => lookupAttr kept "visible" != some "false"
    let isInteractive :=
      lookupAttr kept "enabled" == some "true"
      || lookupAttr kept "accessible" == some "true"
      || isIOSInteractiveType (lookupAttr kept "type")
    ONode.mk name kept (elementToNodeList children) bounds isVisible isInteractive

def elementToNodeList : List RawElement → List ONode
  | [] => []
  | e :: rest => elementToNode e :: elementToNodeList rest

end

/-- The invisibility skip of the iOS optimizeNode: bounds are present with a
width or height that compares less-or-equal to zero (false for NaN). -/
def boundsInvisible (bounds : Option Bounds) : Bool :=
  match bounds with
  | some b => jsLe0 b.width || jsLe0 b.height
  | none => false

/-- Truthiness of the name attribute is negated in the iOS system-UI skip. -/
def nameFalsy (attrs : List (String × String)) : Bool :=
  match lookupAttr attrs "name" with
  | some s => s == ""
  | none => true

/-- The system-UI skip of the iOS optimizeNode.  The source condition is
type.includes(StatusBar) || type.includes(NavigationBar) && !name, so the
name exception applies only to the NavigationBar disjunct. -/
def sysUISkip (attrs : List (String × String)) : Bool :=
  match lookupAttr attrs "type" with
  | some ty =>
    ty != "" && (strContains ty "StatusBar" || (strContains ty "NavigationBar" && nameFalsy attrs))
  | none => false

/-- Some kept attribute has a value other than the empty string,
the string false, or the string null. -/
def hasMeaningfulAttrs (attrs : List (String × String)) : Bool :=
  attrs.any (fun p => p.2 != "" && p.2 != "false" && p.2 != "null")

mutual

/-- optimizeNode for iOS: same structure as the Android optimizer with the
iOS skip conditions. -/
def optimizeNode : ONode → Option ONode
  | .mk name attrs children bounds isVisible isInteractive =>
    if boundsInvisible bounds then none
    else if sysUISkip attrs then none
    else
      let optimizedChildren := optimizeChildren children
      match hasMeaningfulAttrs attrs, optimizedChildren with
      | false, [c] => some c
      | false, [] => none
      | _, _ => some (.mk name attrs optimizedChildren bounds isVisible isInteractive)

def optimizeChildren : List ONode → List ONode
  | [] => []
  | c :: rest =>
    match optimizeNode c with
    | some c2 => c2 :: optimizeChildren rest
    | none => optimizeChildren rest

end

/-- The selection test of the iOS extractInteractiveElements: interactive or
with truthy name or label, and visible. -/
def extractCond (n : ONode) : Bool :=
  (n.isInteractive || attrTruthy n.attributes "name" || attrTruthy n.attributes "label")
    && n.isVisible

mutual

/-- extractInteractiveElements for iOS: pre-order collection of visible nodes
that are interactive or carry a name or label. -/
def extractInteractiveElements : ONode → List ONode
  | n@(.mk _ _ children _ _ _) =>
    (if extractCond n then [n] else []) ++ extractList children

def extractList : List ONode → List ONode
  | [] => []
  | c :: rest => extractInteractiveElements c ++ extractList rest

end

/-- processPageSource for iOS, downstream of the external XML parser. -/
def processPageSource (root : RawElement) : Except String (List ONode) :=
  match optimizeNode (elementToNode root) with
  | none => .error "Optimization resulted in an empty tree"
  | some optimizedRoot => .ok (extractInteractiveElements optimizedRoot)

end IOS

/-- A JSON-like JavaScript value, the raw input of an action invocation. -/
inductive JVal where
  | null
  | bool (b : Bool)
  | num (n : Int)
  | str (s : String)
  | arr (elems : List JVal)
  | obj (fields : List (String × JVal))

/-- Field lookup on an object value; none on a missing key or a non-object. -/
def getField : JVal → String → Option JVal
  | .obj fields, k => (fields.find? (fun p => p.1 == k)).map (fun p => p.2)
  | _, _ => none

/-- A string-typed field of a parsed argument object. -/
def jStrField (v : JVal) (k : String) : Option String :=
  match getField v k with
  | some (.str s) => some s
  | _ => none

/-- A number-typed field of a parsed argument object. -/
def jNumField (v : JVal) (k : String) : Option Int :=
  match getField v k with
  | some (.num n) => some n
  | _ => none

/-- Modelled from the spec: ActionResult as extracted content text (optional),
error (optional), isDone flag and includeInMemory flag; the class itself
(src/lib/agent/types.ts) is absent from src/.  Constructor arguments the
source leaves unset default to none and false. -/
structure ActionResult where
  extractedContent : Option String
  error : Option String
  isDone : Bool
  includeInMemory : Bool
deriving DecidableEq, Repr

/-- A state-changing call against the device adapter. -/
inductive DeviceCall where
  | tap (x y : ℚ)
  | keys (text : String)
  | swipe (startX startY endX endY : ℚ)
  | scrollIntoView (text : String)
deriving DecidableEq, Repr

/-- The slice of MobileContext state the modelled operations read: the cached
interactive-element list of the current snapshot and the window size
(Android platform path). -/
structure MobileContext where
  interactiveElements : List Android.ONode
  windowWidth : ℚ
  windowHeight : ℚ

/-- JavaScript array indexing with a numeric index: undefined when the index
is negative or at least the length. -/
def elemAt {α : Type} (l : List α) (i : Int) : Option α :=
  if i < 0 then none else l[i.toNat]?

/-- Midpoint coordinate of an interval, as computed with JS division. -/
def mid (a len : Int) : ℚ := (a : ℚ) + (len : ℚ) / 2

/-- clickElement: look up the cached element at the index, throw the
not-found error when it is undefined, else tap the center of its bounds
(the source asserts bounds non-null; an absent bounds is a TypeError). -/
def MobileContext.clickElement (ctx : MobileContext) (index : Int) :
    Except String (List DeviceCall) :=
  match elemAt ctx.interactiveElements index with
  | none => .error ("Element at index " ++ toString index ++ " not found")
  | some el =>
    match el.bounds with
    | some b => .ok [DeviceCall.tap (mid b.x b.width) (mid b.y b.height)]
    | none => .error "TypeError: Cannot read properties of undefined"

/-- inputText: same lookup as clickElement, then a tap followed by key input. -/
def MobileContext.inputText (ctx : MobileContext) (index : Int) (text : String) :
    Except String (List DeviceCall) :=
  match elemAt ctx.interactiveElements index with
  | none => .error ("Element at index " ++ toString index ++ " not found")
  | some el =>
    match el.bounds with
    | some b => .ok [DeviceCall.tap (mid b.x b.width) (mid b.y b.height), DeviceCall.keys text]
    | none => .error "TypeError: Cannot read properties of undefined"

/-- scrollDown: one swipe from 80 percent to 20 percent of the screen height. -/
def MobileContext.scrollDown (ctx : MobileContext) (_amount : Int) :
    Except String (List DeviceCall) :=
  .ok [DeviceCall.swipe (ctx.windowWidth / 2) (ctx.windowHeight * (4 / 5))
        (ctx.windowWidth / 2) (ctx.windowHeight * (1 / 5))]

/-- scrollUp: one swipe from 20 percent to 80 percent of the screen height. -/
def MobileContext.scrollUp (ctx : MobileContext) (_amount : Int) :
    Except String (List DeviceCall) :=
  .ok [DeviceCall.swipe (ctx.windowWidth / 2) (ctx.windowHeight * (1 / 5))
        (ctx.windowWidth / 2) (ctx.windowHeight * (4 / 5))]

/-- scrollToText: a scroll-into-view device query. -/
def MobileContext.scrollToText (_ctx : MobileContext) (text : String) :
    Except String (List DeviceCall) :=
  .ok [DeviceCall.scrollIntoView text]

/-- The declared schema of an action: its name and description and a zod
object schema, modelled by the keys of its shape and its safeParse. -/
structure ActionSchema where
  name : String
  description : String
  isZodObject : Bool
  shapeKeys : List String
  safeParse : JVal → Except String JVal

/-- The effect of running a handler: the result it returns or the error it
throws, plus the device calls it performed. -/
structure HandlerOut where
  result : Except String ActionResult
  deviceCalls : List DeviceCall

/-- An action pairs a handler with its declared schema. -/
structure Action where
  handler : JVal → HandlerOut
  schema : ActionSchema

/-- What a call to Action.call does: either it throws InvalidInputError
without touching the handler, or it runs the handler on the given argument
value. -/
inductive CallOutcome where
  | invalidInput (msg : String)
  | handlerRun (args : JVal) (out : HandlerOut)

/-- Action.call: skip validation entirely when the schema is a zod object
with an empty shape and run the handler on the empty object; otherwise
validate, throwing InvalidInputError on failure and running the handler
on the parsed data on success. -/
def Action.call (a : Action) (input : JVal) : CallOutcome :=
  if a.schema.isZodObject && a.schema.shapeKeys.isEmpty then
    .handlerRun (.obj []) (a.handler (.obj []))
  else
    match a.schema.safeParse input with
    | .error msg => .invalidInput msg
    | .ok parsed => .handlerRun parsed (a.handler parsed)

/-- Parse an optional string field of a zod object: absent is accepted,
present must be a string. -/
def parseOptStr (input : JVal) (k : String) (acc : List (String × JVal)) :
    Except String JVal :=
  match getField input k with
  | some (.str s) => .ok (.obj (acc ++ [(k, .str s)]))
  | some _ => .error ("Invalid input: expected string for " ++ k)
  | none => .ok (.obj acc)

/-- Modelled from the spec: the done action schema, a zod object requiring a
string text field (src/lib/agent/actions/schemas.ts is absent from src/). -/
def doneActionSchema : ActionSchema :=
  ⟨"done", "Complete task", true, ["text"],
    fun input =>
      match getField input "text" with
      | some (.str s) => .ok (.obj [("text", .str s)])
      | _ => .error "Invalid input: expected string for text"⟩

/-- Modelled from the spec: the click_element schema, a zod object requiring
a numeric index and an optional desc string (the description field the
handlers read is named desc in the source). -/
def clickElementActionSchema : ActionSchema :=
  ⟨"click_element", "Click element by index", true, ["desc", "index"],
    fun input =>
      match getField input "index" with
      | some (.num n) => parseOptStr input "desc" [("index", .num n)]
      | _ => .error "Invalid input: expected number for index"⟩

/-- Modelled from the spec: the input_text schema, a zod object requiring a
numeric index and a string text, with an optional desc string. -/
def inputTextActionSchema : ActionSchema :=
  ⟨"input_text", "Input text into an element", true, ["desc", "index", "text"],
    fun input =>
      match getField input "index", getField input "text" with
      | some (.num n), some (.str s) =>
        parseOptStr input "desc" [("index", .num n), ("text", .str s)]
      | _, _ => .error "Invalid input: expected number index and string text"⟩

/-- Modelled from the spec: the scroll_down schema, a zod object requiring a
numeric amount, with an optional desc string. -/
def scrollDownActionSchema : ActionSchema :=
  ⟨"scroll_down", "Scroll down the page", true, ["amount", "desc"],
    fun input =>
      match getField input "amount" with
      | some (.num n) => parseOptStr input "desc" [("amount", .num n)]
      | _ => .error "Invalid input: expected number for amount"⟩

/-- Modelled from the spec: the scroll_up schema, a zod object requiring a
numeric amount, with an optional desc string. -/
def scrollUpActionSchema : ActionSchema :=
  ⟨"scroll_up", "Scroll up the page", true, ["amount", "desc"],
    fun input =>
      match getField input "amount" with
      | some (.num n) => parseOptStr input "desc" [("amount", .num n)]
      | _ => .error "Invalid input: expected number for amount"⟩

/-- Modelled from the spec: the scroll_to_text schema, a zod object requiring
a string text, with an optional desc string. -/
def scrollToTextActionSchema : ActionSchema :=
  ⟨"scroll_to_text", "Scroll until a text is visible", true, ["desc", "text"],
    fun input =>
      match getField input "text" with
      | some (.str s) => parseOptStr input "desc" [("text", .str s)]
      | _ => .error "Invalid input: expected string for text"⟩

/-- The desc-or-default pattern of the handlers: input.desc || fallback,
where an absent or empty desc is falsy. -/
def descOr (input : JVal) (fallback : String) : String :=
  match jStrField input "desc" with
  | some d => if d == "" then fallback else d
  | none => fallback

/-- Handler of the done action: succeed with isDone set and the text as
extracted content; no device call. -/
def doneHandler (input : JVal) : HandlerOut :=
  ⟨.ok (ActionResult.mk (jStrField input "text") none true false), []⟩

/-- Handler of click_element: click through the mobile context; a thrown
lookup error propagates out of the handler. -/
def clickElementHandler (ctx : MobileContext) (input : JVal) : HandlerOut :=
  match jNumField input "index" with
  | some idx =>
    let todo := descOr input ("Click element with index " ++ toString idx)
    match ctx.clickElement idx with
    | .ok calls => ⟨.ok (ActionResult.mk (some todo) none false true), calls⟩
    | .error msg => ⟨.error msg, []⟩
  | none => ⟨.error "TypeError: index is not a number", []⟩

/-- Handler of input_text. -/
def inputTextHandler (ctx : MobileContext) (input : JVal) : HandlerOut :=
  match jNumField input "index", jStrField input "text" with
  | some idx, some text =>
    let todo := descOr input ("Input text into index " ++ toString idx)
    match ctx.inputText idx text with
    | .ok calls => ⟨.ok (ActionResult.mk (some todo) none false true), calls⟩
    | .error msg => ⟨.error msg, []⟩
  | _, _ => ⟨.error "TypeError: invalid arguments", []⟩

/-- Handler of scroll_down. -/
def scrollDownHandler (ctx : MobileContext) (input : JVal) : HandlerOut :=
  match jNumField input "amount" with
  | some amount =>
    let todo := descOr input ("Scroll down the page by " ++ toString amount)
    match ctx.scrollDown amount with
    | .ok calls => ⟨.ok (ActionResult.mk (some todo) none false true), calls⟩
    | .error msg => ⟨.error msg, []⟩
  | none => ⟨.error "TypeError: amount is not a number", []⟩

/-- Handler of scroll_up. -/
def scrollUpHandler (ctx : MobileContext) (input : JVal) : HandlerOut :=
  match jNumField input "amount" with
  | some amount =>
    let todo := descOr input ("Scroll up the page by " ++ toString amount)
    match ctx.scrollUp amount with
    | .ok calls => ⟨.ok (ActionResult.mk (some todo) none false true), calls⟩
    | .error msg => ⟨.error msg, []⟩
  | none => ⟨.error "TypeError: amount is not a number", []⟩

/-- Handler of scroll_to_text. -/
def scrollToTextHandler (ctx : MobileContext) (input : JVal) : HandlerOut :=
  match jStrField input "text" with
  | some text =>
    let todo := descOr input ("Scroll to text " ++ text)
    match ctx.scrollToText text with
    | .ok calls => ⟨.ok (ActionResult.mk (some todo) none false true), calls⟩
    | .error msg => ⟨.error msg, []⟩
  | none => ⟨.error "TypeError: text is not a string", []⟩

/-- buildAppiumActions: the six registered actions, in registration order. -/
def buildAppiumActions (ctx : MobileContext) : List Action :=
  [⟨doneHandler, doneActionSchema⟩,
   ⟨clickElementHandler ctx, clickElementActionSchema⟩,
   ⟨inputTextHandler ctx, inputTextActionSchema⟩,
   ⟨scrollDownHandler ctx, scrollDownActionSchema⟩,
   ⟨scrollUpHandler ctx, scrollUpActionSchema⟩,
   ⟨scrollToTextHandler ctx, scrollToTextActionSchema⟩]

/-- One entry of the action list of a model output: an action name with its
raw argument value. -/
structure ActionInvocation where
  name : String
  args : JVal

/-- One iteration body of doMultiAction: registry lookup (a missing action is
the thrown not-exists error), then Action.call (a validation failure is the
thrown InvalidInputError), then the handler outcome; paired with the device
calls performed. -/
def runInvocation (registry : List Action) (inv : ActionInvocation) :
    Except String ActionResult × List DeviceCall :=
  match registry.find? (fun a => a.schema.name == inv.name) with
  | none => (.error ("Action " ++ inv.name ++ " not exists or returned undefined"), [])
  | some a =>
    match a.call inv.args with
    | .invalidInput msg => (.error msg, [])
    | .handlerRun _ out => (out.result, out.deviceCalls)

/-- Whether one invocation errors against a registry. -/
def invFails (registry : List Action) (inv : ActionInvocation) : Bool :=
  match (runInvocation registry inv).1 with
  | .error _ => true
  | .ok _ => false

/-- How many invocations of a list error against a registry. -/
def countFailures (registry : List Action) (acts : List ActionInvocation) : Nat :=
  (acts.filter (invFails registry)).length

/-- Terminal status of one doMultiAction run: the accumulated results, or the
thrown too-many-errors failure. -/
inductive MultiOutcome where
  | ok (results : List ActionResult)
  | tooManyErrors
deriving DecidableEq, Repr

/-- Observable trace of one doMultiAction run: its outcome, how many
invocations were executed (reached by the loop), and the device calls. -/
structure MultiTrace where
  outcome : MultiOutcome
  executed : Nat
  deviceCalls : List DeviceCall
deriving DecidableEq, Repr

/-- The action loop of doMultiAction, with the running error count.  A
successful call appends its result; a thrown error increments errCount and,
when errCount exceeds 3, rethrows as the too-many-errors failure, else
appends an error result and continues.  errCount is never reset.  The
pause and stop flags, which only cut the loop short externally, are not
modelled (taken as false throughout the turn). -/
def doMultiActionGo (registry : List Action) :
    List ActionInvocation → Nat → List ActionResult → Nat → List DeviceCall → MultiTrace
  | [], _, results, executed, calls => ⟨.ok results, executed, calls⟩
  | inv :: rest, errCount, results, executed, calls =>
    match runInvocation registry inv with
    | (.ok r, newCalls) =>
      doMultiActionGo registry rest errCount (results ++ [r]) (executed + 1) (calls ++ newCalls)
    | (.error msg, newCalls) =>
      if errCount + 1 > 3 then ⟨.tooManyErrors, executed + 1, calls ++ newCalls⟩
      else
        doMultiActionGo registry rest (errCount + 1)
          (results ++ [ActionResult.mk none (some msg) false true])
          (executed + 1) (calls ++ newCalls)

/-- doMultiAction on an already-normalized action list. -/
def doMultiAction (registry : List Action) (acts : List ActionInvocation) : MultiTrace :=
  doMultiActionGo registry acts 0 [] 0 []

/-- The done computation of NavigatorAgent.execute: the turn reports done
exactly when the action results are non-empty and the last one has isDone. -/
def navigatorDone (actionResults : List ActionResult) : Bool :=
  match actionResults.getLast? with
  | some r => r.isDone
  | none => false

namespace Android

/-- A predicate holds at every node of a tree. -/
inductive AllNodes (P : ONode → Prop) : ONode → Prop where
  | mk (name : String) (attrs : List (String × String)) (children : List ONode)
       (bounds : Option Bounds) (vis inter : Bool)
       (hp : P (.mk name attrs children bounds vis inter))
       (hc : ∀ c ∈ children, AllNodes P c) :
       AllNodes P (.mk name attrs children bounds vis inter)

/-- Visibility soundness at one node: a visible node has positive bounds. -/
def visP (n : ONode) : Prop :=
  n.isVisible = true → ∃ b, n.bounds = some b ∧ 0 < b.width ∧ 0 < b.height

/-- Shape of a node that optimizeNode leaves unchanged: it passes both skip
conditions and is not subject to promotion or dropping. -/
def optP (n : ONode) : Prop :=
  boundsInvisible n.bounds = false ∧ sysUISkip n.attributes = false
    ∧ (hasMeaningfulAttrs n.attributes = true ∨ 2 ≤ n.children.length)

end Android

namespace IOS

/-- A predicate holds at every node of a tree. -/
inductive AllNodes (P : ONode → Prop) : ONode → Prop where
  | mk (name : String) (attrs : List (String × String)) (children : List ONode)
       (bounds : Option Bounds) (vis inter : Bool)
       (hp : P (.mk name attrs children bounds vis inter))
       (hc : ∀ c ∈ children, AllNodes P c) :
       AllNodes P (.mk name attrs children bounds vis inter)

/-- Visibility soundness at one iOS node: when a visible node has bounds
at all, those bounds are positive. -/
def visP (n : ONode) : Prop :=
  n.isVisible = true → ∀ b, n.bounds = some b → jsGt0 b.width = true ∧ jsGt0 b.height = true

/-- Shape of a node that the iOS optimizeNode leaves unchanged. -/
def optP (n : ONode) : Prop :=
  boundsInvisible n.bounds = false ∧ sysUISkip n.attributes = false
    ∧ (hasMeaningfulAttrs n.attributes = true ∨ 2 ≤ n.children.length)

end IOS

/-- An empty current snapshot: no cached interactive elements. -/
def demoCtxEmpty : MobileContext := ⟨[], 1080, 1920⟩

/-- The six actions registered against the empty snapshot. -/
def demoRegistry : List Action := buildAppiumActions demoCtxEmpty

/-- A click on index 5: well-formed arguments, but out of range for the
empty snapshot, so its handler always throws. -/
def demoFailInv : ActionInvocation := ⟨"click_element", .obj [("index", .num 5)]⟩

/-- A done invocation; its handler always succeeds. -/
def demoDoneInv : ActionInvocation := ⟨"done", .obj [("text", .str "ok")]⟩

/-- Three failures separated by a success: three cumulative, non-consecutive
errors in one turn. -/
def demoPre : List ActionInvocation := [demoFailInv, demoDoneInv, demoFailInv, demoFailInv]

/-- The result the done handler produces for the demo done invocation. -/
def demoDoneResult : ActionResult := ActionResult.mk (some "ok") none true false

/-- The error result produced by the failing demo click. -/
def demoClickErrResult : ActionResult :=
  ActionResult.mk none (some "Element at index 5 not found") false true

/-- A done action followed by a failing click: the done result is not last. -/
def demoDoneFirstActs : List ActionInvocation := [demoDoneInv, demoFailInv]

/-- An action whose schema is a zod object with an empty shape; its safeParse
rejects everything, which Action.call never consults for it. -/
def demoEmptyAction : Action :=
  ⟨fun _ => ⟨.ok (ActionResult.mk none none false false), []⟩,
   ⟨"noop", "No operation", true, [], fun _ => .error "never parsed"⟩⟩

/-- An Android root element with text, a clickable flag and positive bounds. -/
def demoAndroidRoot : RawElement :=
  .mk "node" [("text", "hi"), ("clickable", "true"), ("bounds", "[0,0][100,200]")] []

/-- The node demoAndroidRoot converts and optimizes to. -/
def demoAndroidNode : Android.ONode :=
  .mk "node" [("text", "hi"), ("clickable", "true")] [] (some ⟨0, 0, 100, 200⟩) true true

/-- An iOS root element that is a visible, named, interactive button. -/
def demoIOSRoot : RawElement :=
  .mk "XCUIElementTypeButton"
    [("type", "XCUIElementTypeButton"), ("name", "Go"),
     ("x", "0"), ("y", "0"), ("width", "100"), ("height", "200")] []

/-- The node demoIOSRoot converts and optimizes to. -/
def demoIOSNode : IOS.ONode :=
  .mk "XCUIElementTypeButton"
    [("type", "XCUIElementTypeButton"), ("name", "Go"),
     ("x", "0"), ("y", "0"), ("width", "100"), ("height", "200")] []
    (some ⟨some 0, some 0, some 100, some 200⟩) true true

/-- An iOS element with no geometry attributes at all: enabled, hence
interactive, and visible by the default of a missing visible attribute. -/
def demoIOSNoBounds : RawElement := .mk "XCUIElementTypeApplication" [("enabled", "true")] []

/-- The node demoIOSNoBounds converts to: no bounds, yet visible and
interactive. -/
def demoIOSNoBoundsNode : IOS.ONode :=
  .mk "XCUIElementTypeApplication" [("enabled", "true")] [] none true true

/-- A bare container element: everything about it is meaningless, so its
optimization collapses to nothing. -/
def demoEmptyRoot : RawElement := .mk "hierarchy" [] []

/-- A visible child with text, surviving optimization unchanged. -/
def demoVisChild : Android.ONode :=
  .mk "child" [("text", "hi")] [] (some ⟨0, 0, 10, 10⟩) true false

/-- A meaningless parent with exactly one surviving child. -/
def demoCollapseParent : Android.ONode := .mk "parent" [] [demoVisChild] none false false

/-- A meaningless parent with no children. -/
def demoDropParent : Android.ONode := .mk "parent" [] [] none false false

/-- An Android status-bar container node that nevertheless carries user-
meaningful text. -/
def demoStatusBarNode : Android.ONode :=
  .mk "node" [("resource-id", "com.android.systemui:id/status_bar_container"), ("text", "Hello")]
    [] (some ⟨0, 0, 1080, 80⟩) true false

/-- An iOS status bar that carries a name. -/
def demoIOSStatusBar : IOS.ONode :=
  .mk "XCUIElementTypeStatusBar" [("type", "XCUIElementTypeStatusBar"), ("name", "StatusInfo")]
    [] none true false

/-- An iOS navigation bar without a name. -/
def demoIOSNavNoName : IOS.ONode :=
  .mk "XCUIElementTypeNavigationBar" [("type", "XCUIElementTypeNavigationBar")] [] none true false

/-- An iOS navigation bar with a name. -/
def demoIOSNavNamed : IOS.ONode :=
  .mk "XCUIElementTypeNavigationBar"
    [("type", "XCUIElementTypeNavigationBar"), ("name", "Back")] [] none true false

/-- An Android node whose resource id marks it as the navigation bar. -/
def demoNavBarNode : Android.ONode :=
  .mk "node" [("resource-id", "com.android.systemui:id/navigation_bar_frame")] []
    (some ⟨0, 0, 10, 10⟩) true false

/-
  Theorems.  First the induction principles and general lemmas about the
  embedded functions, then one theorem per examined claim (with its witness
  or counterexample).
-/

/-- Strong induction for RawElement through the nested children list. -/
theorem RawElement.strongInductionRaw (motive : RawElement → Prop)
    (h : ∀ name attrs children,
      (∀ c ∈ children, motive c) → motive (.mk name attrs children)) :
    ∀ e, motive e := fun e =>
  match e with
  | .mk n a cs => h n a cs (fun c _hc => RawElement.strongInductionRaw motive h c)
termination_by e => sizeOf e
decreasing_by
  simp only [RawElement.mk.sizeOf_spec]
  have := List.sizeOf_lt_of_mem _hc
  omega

namespace Android

/-- Strong induction for ONode through the nested children list. -/
theorem ONode.strongInductionA (motive : ONode → Prop)
    (h : ∀ name attrs children bounds vis inter,
      (∀ c ∈ children, motive c) → motive (.mk name attrs children bounds vis inter)) :
    ∀ t, motive t := fun t =>
  match t with
  | .mk n a cs b v i => h n a cs b v i (fun c _hc => ONode.strongInductionA motive h c)
termination_by t => sizeOf t
decreasing_by
  simp only [ONode.mk.sizeOf_spec]
  have := List.sizeOf_lt_of_mem _hc
  omega

end Android

namespace IOS

/-- Strong induction for the iOS ONode through the nested children list. -/
theorem ONode.strongInductionIOS (motive : ONode → Prop)
    (h : ∀ name attrs children bounds vis inter,
      (∀ c ∈ children, motive c) → motive (.mk name attrs children bounds vis inter)) :
    ∀ t, motive t := fun t =>
  match t with
  | .mk n a cs b v i => h n a cs b v i (fun c _hc => ONode.strongInductionIOS motive h c)
termination_by t => sizeOf t
decreasing_by
  simp only [ONode.mk.sizeOf_spec]
  have := List.sizeOf_lt_of_mem _hc
  omega

end IOS

/-- On a schema that is not an empty zod object, Action.call is decided by
safeParse. -/
theorem Action.call_nonempty (a : Action)
    (h : (a.schema.isZodObject && a.schema.shapeKeys.isEmpty) = false) (input : JVal) :
    a.call input
      = (match a.schema.safeParse input with
         | .error msg => .invalidInput msg
         | .ok parsed => .handlerRun parsed (a.handler parsed)) := by
  simp [Action.call, h]

/-- Inversion of a handler run through a non-empty schema: the input parsed
to exactly the handler argument. -/
theorem Action.call_handlerRun_inv (a : Action)
    (hne : (a.schema.isZodObject && a.schema.shapeKeys.isEmpty) = false)
    (input args : JVal) (out : HandlerOut) (h : a.call input = .handlerRun args out) :
    a.schema.safeParse input = .ok args ∧ out = a.handler args := by
  rw [Action.call_nonempty a hne input] at h
  cases hp : a.schema.safeParse input with
  | error m => rw [hp] at h; exact absurd h (by simp)
  | ok p =>
    rw [hp] at h
    simp only [CallOutcome.handlerRun.injEq] at h
    obtain ⟨h1, h2⟩ := h
    subst h2
    subst h1
    exact ⟨rfl, rfl⟩

/-- Each of the six registered schemas is a zod object with a non-empty
shape. -/
theorem buildAppiumActions_nonempty_schema (ctx : MobileContext) (a : Action)
    (ha : a ∈ buildAppiumActions ctx) :
    (a.schema.isZodObject && a.schema.shapeKeys.isEmpty) = false := by
  simp only [buildAppiumActions, List.mem_cons, List.not_mem_nil, or_false] at ha
  rcases ha with h | h | h | h | h | h <;> subst h <;> rfl

/-- C2: for every registered action (all of which declare non-empty object
schemas) and every input, Action.call runs safeParse first: a validation
failure becomes an InvalidInputError and the handler is not run (so nothing
reaches the device adapter), while a validation success runs the handler on
exactly the parsed data. -/
theorem call_validates_before_handler (ctx : MobileContext) (a : Action)
    (ha : a ∈ buildAppiumActions ctx) (input : JVal) :
    (∀ msg, a.schema.safeParse input = .error msg → a.call input = .invalidInput msg)
    ∧ (∀ parsed, a.schema.safeParse input = .ok parsed →
        a.call input = .handlerRun parsed (a.handler parsed)) := by
  have hne := buildAppiumActions_nonempty_schema ctx a ha
  constructor
  · intro msg hmsg
    rw [Action.call_nonempty a hne input, hmsg]
  · intro parsed hp
    rw [Action.call_nonempty a hne input, hp]

/-- Witness for C2: the done action rejects a null input with an
InvalidInputError and the handler never runs. -/
theorem call_validates_before_handler_witness :
    Action.call ⟨doneHandler, doneActionSchema⟩ JVal.null
      = .invalidInput "Invalid input: expected string for text" :=
  (call_validates_before_handler demoCtxEmpty ⟨doneHandler, doneActionSchema⟩
    (by simp [buildAppiumActions]) JVal.null).1 "Invalid input: expected string for text" rfl

/-- C10: an action whose declared schema is a zod object with zero keys
skips validation entirely: for every input, even a malformed one, the
handler runs on the empty object and no InvalidInputError is possible. -/
theorem call_empty_schema_runs_handler (a : Action) (h1 : a.schema.isZodObject = true)
    (h2 : a.schema.shapeKeys = []) (input : JVal) :
    a.call input = .handlerRun (.obj []) (a.handler (.obj []))
    ∧ ∀ msg, a.call input ≠ .invalidInput msg := by
  have hcall : a.call input = .handlerRun (.obj []) (a.handler (.obj [])) := by
    simp [Action.call, h1, h2]
  refine ⟨hcall, fun msg h => ?_⟩
  rw [hcall] at h
  exact CallOutcome.noConfusion h

/-- Witness for C10: the empty-schema demo action runs its handler on a
garbage string input whose safeParse would reject everything. -/
theorem call_empty_schema_runs_handler_witness :
    demoEmptyAction.call (.str "garbage")
      = .handlerRun (.obj []) (demoEmptyAction.handler (.obj []))
    ∧ ∀ msg, demoEmptyAction.call (.str "garbage") ≠ .invalidInput msg :=
  call_empty_schema_runs_handler demoEmptyAction rfl rfl (.str "garbage")

/-- C9: clicking an out-of-range index throws the element-not-found error
before any device tap, and running that single click through the action
loop performs no device call and only appends the error result. -/
theorem click_out_of_range_fails_locally (ctx : MobileContext) (n : Int)
    (h : elemAt ctx.interactiveElements n = none) :
    ctx.clickElement n = .error ("Element at index " ++ toString n ++ " not found")
    ∧ doMultiAction (buildAppiumActions ctx) [⟨"click_element", .obj [("index", .num n)]⟩]
      = ⟨.ok [ActionResult.mk none
                (some ("Element at index " ++ toString n ++ " not found")) false true],
          1, []⟩ := by
  have hclick : ctx.clickElement n
      = .error ("Element at index " ++ toString n ++ " not found") := by
    simp [MobileContext.clickElement, h]
  refine ⟨hclick, ?_⟩
  simp [doMultiAction, doMultiActionGo, runInvocation, buildAppiumActions,
    Action.call, doneActionSchema, clickElementActionSchema, clickElementHandler,
    getField, jNumField, jStrField, descOr, parseOptStr, hclick]

/-- Witness for C9: index 5 against an empty snapshot. -/
theorem click_out_of_range_fails_locally_witness :
    demoCtxEmpty.clickElement 5
      = .error ("Element at index " ++ toString (5 : Int) ++ " not found")
    ∧ doMultiAction (buildAppiumActions demoCtxEmpty)
        [⟨"click_element", .obj [("index", .num 5)]⟩]
      = ⟨.ok [ActionResult.mk none
                (some ("Element at index " ++ toString (5 : Int) ++ " not found")) false true],
          1, []⟩ :=
  click_out_of_range_fails_locally demoCtxEmpty 5 rfl

/-- C6: in the Android optimizer, a node passing both skip checks whose
attributes are all meaningless is replaced by its single surviving child,
and dropped when no child survives. -/
theorem optimizeNode_promote_and_drop (name : String) (attrs : List (String × String))
    (children : List Android.ONode) (bounds : Option Android.Bounds) (vis inter : Bool)
    (c : Android.ONode)
    (hb : Android.boundsInvisible bounds = false) (hs : Android.sysUISkip attrs = false)
    (hm : Android.hasMeaningfulAttrs attrs = false) :
    (Android.optimizeChildren children = [c] →
      Android.optimizeNode (.mk name attrs children bounds vis inter) = some c)
    ∧ (Android.optimizeChildren children = [] →
      Android.optimizeNode (.mk name attrs children bounds vis inter) = none) := by
  constructor <;> intro hoc <;> simp [Android.optimizeNode, hb, hs, hm, hoc]

/-- Witness for C6: a meaningless parent of one surviving child collapses to
the child, and a childless meaningless parent is dropped. -/
theorem optimizeNode_promote_and_drop_witness :
    Android.optimizeNode demoCollapseParent = some demoVisChild
    ∧ Android.optimizeNode demoDropParent = none :=
  ⟨(optimizeNode_promote_and_drop "parent" [] [demoVisChild] none false false
      demoVisChild rfl rfl rfl).1 rfl,
   (optimizeNode_promote_and_drop "parent" [] [] none false false
      demoVisChild rfl rfl rfl).2 rfl⟩

/-- C7: processPageSource fails exactly when optimization collapses the
whole tree to nothing, and otherwise returns the extracted interactive
elements without error, on both platforms. -/
theorem processPageSource_fails_iff_empty :
    (∀ root : RawElement, (∃ e, Android.processPageSource root = .error e)
      ↔ Android.optimizeNode (Android.elementToNode root) = none)
    ∧ (∀ (root : RawElement) (r : Android.ONode),
        Android.optimizeNode (Android.elementToNode root) = some r →
        Android.processPageSource root = .ok (Android.extractInteractiveElements r))
    ∧ (∀ root : RawElement, (∃ e, IOS.processPageSource root = .error e)
      ↔ IOS.optimizeNode (IOS.elementToNode root) = none)
    ∧ (∀ (root : RawElement) (r : IOS.ONode),
        IOS.optimizeNode (IOS.elementToNode root) = some r →
        IOS.processPageSource root = .ok (IOS.extractInteractiveElements r)) := by
  refine ⟨fun root => ?_, fun root r h => ?_, fun root => ?_, fun root r h => ?_⟩
  · rcases h : Android.optimizeNode (Android.elementToNode root) with _ | r <;>
      simp [Android.processPageSource, h]
  · simp [Android.processPageSource, h]
  · rcases h : IOS.optimizeNode (IOS.elementToNode root) with _ | r <;>
      simp [IOS.processPageSource, h]
  · simp [IOS.processPageSource, h]

/-- Witness for C7: a bare container collapses and fails; the demo trees
succeed with their extracted elements. -/
theorem processPageSource_fails_iff_empty_witness :
    (∃ e, Android.processPageSource demoEmptyRoot = .error e)
    ∧ Android.processPageSource demoAndroidRoot
        = .ok (Android.extractInteractiveElements demoAndroidNode)
    ∧ (∃ e, IOS.processPageSource demoEmptyRoot = .error e)
    ∧ IOS.processPageSource demoIOSRoot
        = .ok (IOS.extractInteractiveElements demoIOSNode) :=
  ⟨(processPageSource_fails_iff_empty.1 demoEmptyRoot).mpr rfl,
   processPageSource_fails_iff_empty.2.1 demoAndroidRoot demoAndroidNode rfl,
   (processPageSource_fails_iff_empty.2.2.1 demoEmptyRoot).mpr rfl,
   processPageSource_fails_iff_empty.2.2.2 demoIOSRoot demoIOSNode rfl⟩

/-- Unfolding of the failure count over a cons. -/
theorem countFailures_cons (reg : List Action) (inv : ActionInvocation)
    (rest : List ActionInvocation) :
    countFailures reg (inv :: rest)
      = (if invFails reg inv then 1 else 0) + countFailures reg rest := by
  cases h : invFails reg inv <;> simp [countFailures, List.filter_cons, h] <;> omega

/-- The loop runs straight through a block whose failures do not push the
running error count past 3, accumulating its length into the executed
count and its failures into the error count. -/
theorem doMultiActionGo_through (reg : List Action) :
    ∀ (pre rest : List ActionInvocation) (errCount : Nat) (results : List ActionResult)
      (executed : Nat) (calls : List DeviceCall),
      errCount + countFailures reg pre ≤ 3 →
      ∃ results2 calls2,
        doMultiActionGo reg (pre ++ rest) errCount results executed calls
          = doMultiActionGo reg rest (errCount + countFailures reg pre) results2
              (executed + pre.length) calls2 := by
  intro pre
  induction pre with
  | nil =>
    intro rest errCount results executed calls _h
    exact ⟨results, calls, by simp [countFailures]⟩
  | cons inv pre ih =>
    intro rest errCount results executed calls h
    cases hrun : runInvocation reg inv with
    | mk res calls1 =>
      cases res with
      | ok r =>
        have hfail : invFails reg inv = false := by simp [invFails, hrun]
        have hcf : countFailures reg (inv :: pre) = countFailures reg pre := by
          rw [countFailures_cons, hfail]; simp
        have hh : errCount + countFailures reg pre ≤ 3 := by rw [hcf] at h; exact h
        obtain ⟨r2, c2, heq⟩ :=
          ih rest errCount (results ++ [r]) (executed + 1) (calls ++ calls1) hh
        refine ⟨r2, c2, ?_⟩
        have hstep : doMultiActionGo reg ((inv :: pre) ++ rest) errCount results executed calls
            = doMultiActionGo reg (pre ++ rest) errCount (results ++ [r]) (executed + 1)
                (calls ++ calls1) := by
          rw [List.cons_append]
          simp [doMultiActionGo, hrun]
        have harith1 : errCount + countFailures reg (inv :: pre)
            = errCount + countFailures reg pre := by rw [hcf]
        have harith2 : executed + (inv :: pre).length = (executed + 1) + pre.length := by
          simp [List.length_cons]; omega
        rw [hstep, heq, harith1, harith2]
      | error msg =>
        have hfail : invFails reg inv = true := by simp [invFails, hrun]
        have hcf : countFailures reg (inv :: pre) = 1 + countFailures reg pre := by
          rw [countFailures_cons, hfail]; simp
        have hh : (errCount + 1) + countFailures reg pre ≤ 3 := by rw [hcf] at h; omega
        have hlt : ¬ errCount + 1 > 3 := by omega
        obtain ⟨r2, c2, heq⟩ := ih rest (errCount + 1)
          (results ++ [ActionResult.mk none (some msg) false true]) (executed + 1)
          (calls ++ calls1) hh
        refine ⟨r2, c2, ?_⟩
        have hstep : doMultiActionGo reg ((inv :: pre) ++ rest) errCount results executed calls
            = doMultiActionGo reg (pre ++ rest) (errCount + 1)
                (results ++ [ActionResult.mk none (some msg) false true]) (executed + 1)
                (calls ++ calls1) := by
          rw [List.cons_append]
          simp [doMultiActionGo, hrun, hlt]
        have harith1 : errCount + countFailures reg (inv :: pre)
            = (errCount + 1) + countFailures reg pre := by rw [hcf]; omega
        have harith2 : executed + (inv :: pre).length = (executed + 1) + pre.length := by
          simp [List.length_cons]; omega
        rw [hstep, heq, harith1, harith2]

/-- C1 (amended): the loop raises the too-many-errors failure on the fourth
cumulative action failure of the turn (the failures need not be
consecutive), and no action after that fourth failure is executed. -/
theorem doMultiAction_aborts_on_fourth_error (reg : List Action)
    (pre post : List ActionInvocation) (inv : ActionInvocation)
    (hpre : countFailures reg pre = 3) (hinv : invFails reg inv = true) :
    (doMultiAction reg (pre ++ inv :: post)).outcome = MultiOutcome.tooManyErrors
    ∧ (doMultiAction reg (pre ++ inv :: post)).executed = pre.length + 1 := by
  obtain ⟨r2, c2, heq⟩ := doMultiActionGo_through reg pre (inv :: post) 0 [] 0 []
    (by omega)
  rw [hpre] at heq
  obtain ⟨msg, calls1, hrun⟩ :
      ∃ msg calls1, runInvocation reg inv = (.error msg, calls1) := by
    revert hinv
    unfold invFails
    cases hr : runInvocation reg inv with
    | mk res calls1 =>
      cases res with
      | ok r => intro hfalse; exact absurd hfalse (by simp)
      | error m => intro _; exact ⟨m, calls1, rfl⟩
  have hfinal : doMultiActionGo reg (inv :: post) (0 + 3) r2 (0 + pre.length) c2
      = ⟨MultiOutcome.tooManyErrors, (0 + pre.length) + 1, c2 ++ calls1⟩ := by
    simp [doMultiActionGo, hrun]
  unfold doMultiAction
  rw [heq, hfinal]
  exact ⟨rfl, by simp⟩

/-- Counterexample for C1 as stated: three consecutive failures do not end
the loop; the fourth action still executes and the turn finishes normally. -/
theorem doMultiAction_three_errors_continues :
    (doMultiAction demoRegistry [demoFailInv, demoFailInv, demoFailInv, demoDoneInv]).outcome
      ≠ MultiOutcome.tooManyErrors
    ∧ (doMultiAction demoRegistry [demoFailInv, demoFailInv, demoFailInv, demoDoneInv]).executed
      = 4
    ∧ (doMultiAction demoRegistry [demoFailInv, demoFailInv, demoFailInv, demoDoneInv]).outcome
      = MultiOutcome.ok
          [demoClickErrResult, demoClickErrResult, demoClickErrResult, demoDoneResult] := by
  refine ⟨?_, rfl, rfl⟩
  intro h
  exact MultiOutcome.noConfusion (rfl.trans h :
    MultiOutcome.ok [demoClickErrResult, demoClickErrResult, demoClickErrResult, demoDoneResult]
      = MultiOutcome.tooManyErrors)

/-- Witness for C1 (amended): three non-consecutive failures, then a fourth
failing action, abort the turn with two actions left unexecuted. -/
theorem doMultiAction_aborts_on_fourth_error_witness :
    countFailures demoRegistry demoPre = 3
    ∧ invFails demoRegistry demoFailInv = true
    ∧ (doMultiAction demoRegistry (demoPre ++ demoFailInv :: [demoDoneInv, demoDoneInv])).outcome
      = MultiOutcome.tooManyErrors
    ∧ (doMultiAction demoRegistry (demoPre ++ demoFailInv :: [demoDoneInv, demoDoneInv])).executed
      = demoPre.length + 1 :=
  ⟨rfl, rfl,
   (doMultiAction_aborts_on_fourth_error demoRegistry demoPre [demoDoneInv, demoDoneInv]
      demoFailInv rfl rfl).1,
   (doMultiAction_aborts_on_fourth_error demoRegistry demoPre [demoDoneInv, demoDoneInv]
      demoFailInv rfl rfl).2⟩

/-- The done handler only returns results with isDone set. -/
theorem doneHandler_isDone (args : JVal) (r : ActionResult)
    (h : (doneHandler args).result = .ok r) : r.isDone = true := by
  simp [doneHandler] at h
  rw [← h]

/-- The click handler never returns a result with isDone set. -/
theorem clickElementHandler_isDone (ctx : MobileContext) (args : JVal) (r : ActionResult)
    (h : (clickElementHandler ctx args).result = .ok r) : r.isDone = false := by
  unfold clickElementHandler at h
  rcases hidx : jNumField args "index" with _ | idx
  · simp only [hidx] at h
    exact absurd h (by simp)
  · simp only [hidx] at h
    rcases hcl : ctx.clickElement idx with msg | calls
    · simp only [hcl] at h
      exact absurd h (by simp)
    · simp only [hcl] at h
      simp at h
      rw [← h]

/-- The input-text handler never returns a result with isDone set. -/
theorem inputTextHandler_isDone (ctx : MobileContext) (args : JVal) (r : ActionResult)
    (h : (inputTextHandler ctx args).result = .ok r) : r.isDone = false := by
  unfold inputTextHandler at h
  rcases hidx : jNumField args "index" with _ | idx <;>
    rcases htxt : jStrField args "text" with _ | text <;>
      simp only [hidx, htxt] at h
  · exact absurd h (by simp)
  · exact absurd h (by simp)
  · exact absurd h (by simp)
  · rcases hcl : ctx.inputText idx text with msg | calls
    · simp only [hcl] at h
      exact absurd h (by simp)
    · simp only [hcl] at h
      simp at h
      rw [← h]

/-- The scroll-down handler never returns a result with isDone set. -/
theorem scrollDownHandler_isDone (ctx : MobileContext) (args : JVal) (r : ActionResult)
    (h : (scrollDownHandler ctx args).result = .ok r) : r.isDone = false := by
  unfold scrollDownHandler at h
  rcases ha : jNumField args "amount" with _ | amount
  · simp only [ha] at h
    exact absurd h (by simp)
  · simp only [ha] at h
    simp [MobileContext.scrollDown] at h
    rw [← h]

/-- The scroll-up handler never returns a result with isDone set. -/
theorem scrollUpHandler_isDone (ctx : MobileContext) (args : JVal) (r : ActionResult)
    (h : (scrollUpHandler ctx args).result = .ok r) : r.isDone = false := by
  unfold scrollUpHandler at h
  rcases ha : jNumField args "amount" with _ | amount
  · simp only [ha] at h
    exact absurd h (by simp)
  · simp only [ha] at h
    simp [MobileContext.scrollUp] at h
    rw [← h]

/-- The scroll-to-text handler never returns a result with isDone set. -/
theorem scrollToTextHandler_isDone (ctx : MobileContext) (args : JVal) (r : ActionResult)
    (h : (scrollToTextHandler ctx args).result = .ok r) : r.isDone = false := by
  unfold scrollToTextHandler at h
  rcases ht : jStrField args "text" with _ | text
  · simp only [ht] at h
    exact absurd h (by simp)
  · simp only [ht] at h
    simp [MobileContext.scrollToText] at h
    rw [← h]

/-- C4 (amended): a Navigator turn reports done exactly when its final
action result carries isDone, and among the registered actions only the
done action ever produces a result with isDone; hence done is reported
exactly when the last executed action of the turn was the done action,
and a done action that is not last does not end the turn. -/
theorem navigator_done_iff_last_action_done :
    (∀ results : List ActionResult,
      navigatorDone results = true ↔ ∃ r, results.getLast? = some r ∧ r.isDone = true)
    ∧ (∀ (ctx : MobileContext) (a : Action), a ∈ buildAppiumActions ctx →
        ∀ (input args : JVal) (out : HandlerOut) (r : ActionResult),
          a.call input = .handlerRun args out → out.result = .ok r →
          (r.isDone = true ↔ a.schema.name = "done")) := by
  constructor
  · intro results
    unfold navigatorDone
    cases h : results.getLast? with
    | none => simp
    | some r => simp
  · intro ctx a ha input args out r hcall hok
    have hne := buildAppiumActions_nonempty_schema ctx a ha
    obtain ⟨_hp, hout⟩ := Action.call_handlerRun_inv a hne input args out hcall
    subst hout
    simp only [buildAppiumActions, List.mem_cons, List.not_mem_nil, or_false] at ha
    rcases ha with h | h | h | h | h | h <;> subst h
    · exact iff_of_true (doneHandler_isDone args r hok) rfl
    · exact iff_of_false (by simp [clickElementHandler_isDone ctx args r hok])
        (by show ¬ ("click_element" : String) = "done"; decide)
    · exact iff_of_false (by simp [inputTextHandler_isDone ctx args r hok])
        (by show ¬ ("input_text" : String) = "done"; decide)
    · exact iff_of_false (by simp [scrollDownHandler_isDone ctx args r hok])
        (by show ¬ ("scroll_down" : String) = "done"; decide)
    · exact iff_of_false (by simp [scrollUpHandler_isDone ctx args r hok])
        (by show ¬ ("scroll_up" : String) = "done"; decide)
    · exact iff_of_false (by simp [scrollToTextHandler_isDone ctx args r hok])
        (by show ¬ ("scroll_to_text" : String) = "done"; decide)

/-- Counterexample for C4 as stated: a turn that executes a done action
first and then a failing click has executed a done action, yet the turn
reports done = false because the done result is not last. -/
theorem done_not_last_not_reported :
    (doMultiAction demoRegistry demoDoneFirstActs).outcome
      = MultiOutcome.ok [demoDoneResult, demoClickErrResult]
    ∧ demoDoneResult.isDone = true
    ∧ navigatorDone [demoDoneResult, demoClickErrResult] = false :=
  ⟨rfl, rfl, rfl⟩

/-- Witness for C4 (amended): a turn ending in the done result reports done,
and the done action is the one whose results have isDone. -/
theorem navigator_done_iff_last_action_done_witness :
    navigatorDone [demoClickErrResult, demoDoneResult] = true
    ∧ (demoDoneResult.isDone = true ↔ ("done" : String) = "done") :=
  ⟨(navigator_done_iff_last_action_done.1 [demoClickErrResult, demoDoneResult]).mpr
      ⟨demoDoneResult, rfl, rfl⟩,
   navigator_done_iff_last_action_done.2 demoCtxEmpty ⟨doneHandler, doneActionSchema⟩
      (by simp [buildAppiumActions]) (.obj [("text", .str "ok")]) (.obj [("text", .str "ok")])
      ⟨.ok demoDoneResult, []⟩ demoDoneResult rfl rfl⟩


namespace Android

theorem elementToNodeList_eq_map (l : List RawElement) :
    elementToNodeList l = l.map elementToNode := by
  induction l with
  | nil => rfl
  | cons e rest ih => simp [elementToNodeList, ih]

theorem optimizeChildren_eq_filterMap (l : List ONode) :
    optimizeChildren l = l.filterMap optimizeNode := by
  induction l with
  | nil => rfl
  | cons c rest ih =>
    simp only [optimizeChildren, List.filterMap_cons, ih]
    cases optimizeNode c <;> simp

theorem optimizeChildren_of_fixed (l : List ONode)
    (h : ∀ c ∈ l, optimizeNode c = some c) : optimizeChildren l = l := by
  induction l with
  | nil => rfl
  | cons c rest ih =>
    simp only [optimizeChildren]
    rw [h c (by simp)]
    rw [ih (fun c2 hc2 => h c2 (by simp [hc2]))]

theorem allNodes_head {P : ONode → Prop} {n : ONode} (h : AllNodes P n) : P n := by
  cases h with | mk _ _ _ _ _ _ hp _ => exact hp

theorem allNodes_children {P : ONode → Prop} {n : ONode} (h : AllNodes P n) :
    ∀ c ∈ n.children, AllNodes P c := by
  cases h with | mk _ _ _ _ _ _ _ hc => exact hc

theorem extractList_mem (l : List ONode) (x : ONode) (hx : x ∈ extractList l) :
    ∃ c ∈ l, x ∈ extractInteractiveElements c := by
  induction l with
  | nil => simp [extractList] at hx
  | cons c rest ih =>
    simp only [extractList, List.mem_append] at hx
    cases hx with
    | inl h1 => exact ⟨c, by simp, h1⟩
    | inr h2 =>
      obtain ⟨c2, hc2, hxc⟩ := ih h2
      exact ⟨c2, by simp [hc2], hxc⟩

theorem extract_mem_pred (P : ONode → Prop) (t : ONode) (x : ONode)
    (hx : x ∈ extractInteractiveElements t) (hall : AllNodes P t) : P x := by
  induction t using ONode.strongInductionA with
  | h name attrs children bounds vis inter ih =>
    simp only [extractInteractiveElements, List.mem_append] at hx
    cases hx with
    | inl h1 =>
      by_cases hc : extractCond (.mk name attrs children bounds vis inter)
      · rw [if_pos hc] at h1
        simp at h1
        subst h1
        exact allNodes_head hall
      · rw [if_neg hc] at h1
        simp at h1
    | inr h2 =>
      obtain ⟨c, hcm, hxc⟩ := extractList_mem children x h2
      exact ih c hcm hxc (allNodes_children hall c hcm)

theorem extract_cond_of_mem (t x : ONode) (hx : x ∈ extractInteractiveElements t) :
    extractCond x = true := by
  induction t using ONode.strongInductionA with
  | h name attrs children bounds vis inter ih =>
    simp only [extractInteractiveElements, List.mem_append] at hx
    cases hx with
    | inl h1 =>
      by_cases hc : extractCond (.mk name attrs children bounds vis inter)
      · rw [if_pos hc] at h1
        simp at h1
        subst h1
        exact hc
      · rw [if_neg hc] at h1
        simp at h1
    | inr h2 =>
      obtain ⟨c, hcm, hxc⟩ := extractList_mem children x h2
      exact ih c hcm hxc

theorem visP_mk (name : String) (kept : List (String × String)) (cs : List ONode)
    (bounds : Option Bounds) (inter : Bool) :
    visP (ONode.mk name kept cs bounds
      (match bounds with
       | some b => decide (0 < b.width) && decide (0 < b.height)
       | none => false) inter) := by
  intro hvis
  cases bounds with
  | none => simp [ONode.isVisible] at hvis
  | some b =>
    simp [ONode.isVisible] at hvis
    exact ⟨b, rfl, hvis.1, hvis.2⟩

theorem elementToNode_visP (e : RawElement) : AllNodes visP (elementToNode e) := by
  induction e using RawElement.strongInductionRaw with
  | h name attrs children ih =>
    simp only [elementToNode]
    refine AllNodes.mk _ _ _ _ _ _ (visP_mk _ _ _ _ _) ?_
    intro c hc
    simp only [ONode.children, elementToNodeList_eq_map, List.mem_map] at hc
    obtain ⟨c0, hc0, rfl⟩ := hc
    exact ih c0 hc0

end Android

namespace Android

theorem optimizeNode_preserves (P : ONode → Prop)
    (hP : ∀ name attrs cs cs2 bounds vis inter,
      P (.mk name attrs cs bounds vis inter) → P (.mk name attrs cs2 bounds vis inter))
    (t : ONode) : ∀ u, optimizeNode t = some u → AllNodes P t → AllNodes P u := by
  induction t using ONode.strongInductionA with
  | h name attrs children bounds vis inter ih =>
    intro u hu hall
    have hmemopt : ∀ c2 ∈ optimizeChildren children, AllNodes P c2 := by
      intro c2 hc2
      rw [optimizeChildren_eq_filterMap] at hc2
      obtain ⟨c0, hc0, hopt⟩ := List.mem_filterMap.mp hc2
      exact ih c0 hc0 c2 hopt (allNodes_children hall c0 hc0)
    simp only [optimizeNode] at hu
    cases hb : boundsInvisible bounds <;> rw [hb] at hu
    case true => simp at hu
    case false =>
    simp only [Bool.false_eq_true, if_false] at hu
    cases hs : sysUISkip attrs <;> rw [hs] at hu
    case true => simp at hu
    case false =>
    simp only [Bool.false_eq_true, if_false] at hu
    cases hm : hasMeaningfulAttrs attrs <;>
      rcases hoc : optimizeChildren children with _ | ⟨c1, _ | ⟨c2, cs⟩⟩ <;>
        rw [hm, hoc] at hu <;> simp at hu
    · -- hm false, [c1] : promote
      subst hu
      exact hmemopt c1 (by rw [hoc]; simp)
    · -- hm false, c1 :: c2 :: cs : keep
      rw [← hu]
      refine AllNodes.mk _ _ _ _ _ _ (hP _ _ _ _ _ _ _ (allNodes_head hall)) ?_
      intro c hc
      simp only [ONode.children] at hc
      exact hmemopt c (by rw [hoc]; exact hc)
    · -- hm true, [] : keep
      rw [← hu]
      refine AllNodes.mk _ _ _ _ _ _ (hP _ _ _ _ _ _ _ (allNodes_head hall)) ?_
      intro c hc
      simp only [ONode.children] at hc
      exact hmemopt c (by rw [hoc]; exact hc)
    · rw [← hu]
      refine AllNodes.mk _ _ _ _ _ _ (hP _ _ _ _ _ _ _ (allNodes_head hall)) ?_
      intro c hc
      simp only [ONode.children] at hc
      exact hmemopt c (by rw [hoc]; exact hc)
    · rw [← hu]
      refine AllNodes.mk _ _ _ _ _ _ (hP _ _ _ _ _ _ _ (allNodes_head hall)) ?_
      intro c hc
      simp only [ONode.children] at hc
      exact hmemopt c (by rw [hoc]; exact hc)

end Android

namespace Android

theorem optimizeNode_output_opt (t : ONode) :
    ∀ u, optimizeNode t = some u → AllNodes optP u := by
  induction t using ONode.strongInductionA with
  | h name attrs children bounds vis inter ih =>
    intro u hu
    have hmemopt : ∀ c2 ∈ optimizeChildren children, AllNodes optP c2 := by
      intro c2 hc2
      rw [optimizeChildren_eq_filterMap] at hc2
      obtain ⟨c0, hc0, hopt⟩ := List.mem_filterMap.mp hc2
      exact ih c0 hc0 c2 hopt
    simp only [optimizeNode] at hu
    cases hb : boundsInvisible bounds <;> rw [hb] at hu
    case true => simp at hu
    case false =>
    simp only [Bool.false_eq_true, if_false] at hu
    cases hs : sysUISkip attrs <;> rw [hs] at hu
    case true => simp at hu
    case false =>
    simp only [Bool.false_eq_true, if_false] at hu
    cases hm : hasMeaningfulAttrs attrs <;>
      rcases hoc : optimizeChildren children with _ | ⟨c1, _ | ⟨c2, cs⟩⟩ <;>
        rw [hm, hoc] at hu <;> simp at hu
    · -- promote: u is itself an optimizer output
      subst hu
      exact hmemopt c1 (by rw [hoc]; simp)
    · -- hm false, two or more children
      rw [← hu]
      refine AllNodes.mk _ _ _ _ _ _ ⟨hb, hs, Or.inr (by simp [ONode.children])⟩ ?_
      intro c hc
      simp only [ONode.children] at hc
      exact hmemopt c (by rw [hoc]; exact hc)
    · -- hm true, no children
      rw [← hu]
      refine AllNodes.mk _ _ _ _ _ _ ⟨hb, hs, Or.inl hm⟩ ?_
      intro c hc
      simp only [ONode.children] at hc
      simp at hc
    · -- hm true, one child
      rw [← hu]
      refine AllNodes.mk _ _ _ _ _ _ ⟨hb, hs, Or.inl hm⟩ ?_
      intro c hc
      simp only [ONode.children] at hc
      exact hmemopt c (by rw [hoc]; exact hc)
    · -- hm true, two or more children
      rw [← hu]
      refine AllNodes.mk _ _ _ _ _ _ ⟨hb, hs, Or.inl hm⟩ ?_
      intro c hc
      simp only [ONode.children] at hc
      exact hmemopt c (by rw [hoc]; exact hc)

theorem optimizeNode_of_opt (u : ONode) (h : AllNodes optP u) : optimizeNode u = some u := by
  induction h with
  | mk name attrs children bounds vis inter hp hc ih =>
    simp only [optP, ONode.bounds, ONode.attributes, ONode.children] at hp
    obtain ⟨hb, hs, hm⟩ := hp
    have hfix : optimizeChildren children = children :=
      optimizeChildren_of_fixed children (fun c hcm => ih c hcm)
    simp only [optimizeNode, hb, hs, hfix, Bool.false_eq_true, if_false]
    rcases hm with hm | hlen
    · rw [hm]
    · rcases children with _ | ⟨c1, _ | ⟨c2, cs⟩⟩
      · simp at hlen
      · simp at hlen
      · cases hasMeaningfulAttrs attrs <;> rfl
end Android

namespace IOS

theorem elementToNodeList_eq_mapIOS (l : List RawElement) :
    elementToNodeList l = l.map elementToNode := by
  induction l with
  | nil => rfl
  | cons e rest ih => simp [elementToNodeList, ih]

theorem optimizeChildren_eq_filterMapIOS (l : List ONode) :
    optimizeChildren l = l.filterMap optimizeNode := by
  induction l with
  | nil => rfl
  | cons c rest ih =>
    simp only [optimizeChildren, List.filterMap_cons, ih]
    cases optimizeNode c <;> simp

theorem optimizeChildren_of_fixedIOS (l : List ONode)
    (h : ∀ c ∈ l, optimizeNode c = some c) : optimizeChildren l = l := by
  induction l with
  | nil => rfl
  | cons c rest ih =>
    simp only [optimizeChildren]
    rw [h c (by simp)]
    rw [ih (fun c2 hc2 => h c2 (by simp [hc2]))]

theorem allNodes_headIOS {P : ONode → Prop} {n : ONode} (h : AllNodes P n) : P n := by
  cases h with | mk _ _ _ _ _ _ hp _ => exact hp

theorem allNodes_childrenIOS {P : ONode → Prop} {n : ONode} (h : AllNodes P n) :
    ∀ c ∈ n.children, AllNodes P c := by
  cases h with | mk _ _ _ _ _ _ _ hc => exact hc

theorem extractList_memIOS (l : List ONode) (x : ONode) (hx : x ∈ extractList l) :
    ∃ c ∈ l, x ∈ extractInteractiveElements c := by
  induction l with
  | nil => simp [extractList] at hx
  | cons c rest ih =>
    simp only [extractList, List.mem_append] at hx
    cases hx with
    | inl h1 => exact ⟨c, by simp, h1⟩
    | inr h2 =>
      obtain ⟨c2, hc2, hxc⟩ := ih h2
      exact ⟨c2, by simp [hc2], hxc⟩

theorem extract_mem_predIOS (P : ONode → Prop) (t : ONode) (x : ONode)
    (hx : x ∈ extractInteractiveElements t) (hall : AllNodes P t) : P x := by
  induction t using ONode.strongInductionIOS with
  | h name attrs children bounds vis inter ih =>
    simp only [extractInteractiveElements, List.mem_append] at hx
    cases hx with
    | inl h1 =>
      by_cases hc : extractCond (.mk name attrs children bounds vis inter)
      · rw [if_pos hc] at h1
        simp at h1
        subst h1
        exact allNodes_headIOS hall
      · rw [if_neg hc] at h1
        simp at h1
    | inr h2 =>
      obtain ⟨c, hcm, hxc⟩ := extractList_memIOS children x h2
      exact ih c hcm hxc (allNodes_childrenIOS hall c hcm)

theorem extract_cond_of_memIOS (t x : ONode) (hx : x ∈ extractInteractiveElements t) :
    extractCond x = true := by
  induction t using ONode.strongInductionIOS with
  | h name attrs children bounds vis inter ih =>
    simp only [extractInteractiveElements, List.mem_append] at hx
    cases hx with
    | inl h1 =>
      by_cases hc : extractCond (.mk name attrs children bounds vis inter)
      · rw [if_pos hc] at h1
        simp at h1
        subst h1
        exact hc
      · rw [if_neg hc] at h1
        simp at h1
    | inr h2 =>
      obtain ⟨c, hcm, hxc⟩ := extractList_memIOS children x h2
      exact ih c hcm hxc

theorem visP_mkIOS (name : String) (kept : List (String × String)) (cs : List ONode)
    (bounds : Option Bounds) (inter : Bool) :
    visP (ONode.mk name kept cs bounds
      (match bounds with
       | some b => jsGt0 b.width && jsGt0 b.height && (lookupAttr kept "visible" != some "false")
       | none => lookupAttr kept "visible" != some "false") inter) := by
  intro hvis b hb
  cases bounds with
  | none => simp [ONode.bounds] at hb
  | some b2 =>
    simp only [ONode.bounds, Option.some.injEq] at hb
    subst hb
    simp only [ONode.isVisible, Bool.and_eq_true] at hvis
    exact ⟨hvis.1.1, hvis.1.2⟩

theorem elementToNode_visPIOS (e : RawElement) : AllNodes visP (elementToNode e) := by
  induction e using RawElement.strongInductionRaw with
  | h name attrs children ih =>
    simp only [elementToNode]
    refine AllNodes.mk _ _ _ _ _ _ (visP_mkIOS _ _ _ _ _) ?_
    intro c hc
    simp only [ONode.children, elementToNodeList_eq_mapIOS, List.mem_map] at hc
    obtain ⟨c0, hc0, rfl⟩ := hc
    exact ih c0 hc0

theorem optimizeNode_preservesIOS (P : ONode → Prop)
    (hP : ∀ name attrs cs cs2 bounds vis inter,
      P (.mk name attrs cs bounds vis inter) → P (.mk name attrs cs2 bounds vis inter))
    (t : ONode) : ∀ u, optimizeNode t = some u → AllNodes P t → AllNodes P u := by
  induction t using ONode.strongInductionIOS with
  | h name attrs children bounds vis inter ih =>
    intro u hu hall
    have hmemopt : ∀ c2 ∈ optimizeChildren children, AllNodes P c2 := by
      intro c2 hc2
      rw [optimizeChildren_eq_filterMapIOS] at hc2
      obtain ⟨c0, hc0, hopt⟩ := List.mem_filterMap.mp hc2
      exact ih c0 hc0 c2 hopt (allNodes_childrenIOS hall c0 hc0)
    simp only [optimizeNode] at hu
    cases hb : boundsInvisible bounds <;> rw [hb] at hu
    case true => simp at hu
    case false =>
    simp only [Bool.false_eq_true, if_false] at hu
    cases hs : sysUISkip attrs <;> rw [hs] at hu
    case true => simp at hu
    case false =>
    simp only [Bool.false_eq_true, if_false] at hu
    cases hm : hasMeaningfulAttrs attrs <;>
      rcases hoc : optimizeChildren children with _ | ⟨c1, _ | ⟨c2, cs⟩⟩ <;>
        rw [hm, hoc] at hu <;> simp at hu
    · subst hu
      exact hmemopt c1 (by rw [hoc]; simp)
    · rw [← hu]
      refine AllNodes.mk _ _ _ _ _ _ (hP _ _ _ _ _ _ _ (allNodes_headIOS hall)) ?_
      intro c hc
      simp only [ONode.children] at hc
      exact hmemopt c (by rw [hoc]; exact hc)
    · rw [← hu]
      refine AllNodes.mk _ _ _ _ _ _ (hP _ _ _ _ _ _ _ (allNodes_headIOS hall)) ?_
      intro c hc
      simp only [ONode.children] at hc
      exact hmemopt c (by rw [hoc]; exact hc)
    · rw [← hu]
      refine AllNodes.mk _ _ _ _ _ _ (hP _ _ _ _ _ _ _ (allNodes_headIOS hall)) ?_
      intro c hc
      simp only [ONode.children] at hc
      exact hmemopt c (by rw [hoc]; exact hc)
    · rw [← hu]
      refine AllNodes.mk _ _ _ _ _ _ (hP _ _ _ _ _ _ _ (allNodes_headIOS hall)) ?_
      intro c hc
      simp only [ONode.children] at hc
      exact hmemopt c (by rw [hoc]; exact hc)

theorem optimizeNode_output_optIOS (t : ONode) :
    ∀ u, optimizeNode t = some u → AllNodes optP u := by
  induction t using ONode.strongInductionIOS with
  | h name attrs children bounds vis inter ih =>
    intro u hu
    have hmemopt : ∀ c2 ∈ optimizeChildren children, AllNodes optP c2 := by
      intro c2 hc2
      rw [optimizeChildren_eq_filterMapIOS] at hc2
      obtain ⟨c0, hc0, hopt⟩ := List.mem_filterMap.mp hc2
      exact ih c0 hc0 c2 hopt
    simp only [optimizeNode] at hu
    cases hb : boundsInvisible bounds <;> rw [hb] at hu
    case true => simp at hu
    case false =>
    simp only [Bool.false_eq_true, if_false] at hu
    cases hs : sysUISkip attrs <;> rw [hs] at hu
    case true => simp at hu
    case false =>
    simp only [Bool.false_eq_true, if_false] at hu
    cases hm : hasMeaningfulAttrs attrs <;>
      rcases hoc : optimizeChildren children with _ | ⟨c1, _ | ⟨c2, cs⟩⟩ <;>
        rw [hm, hoc] at hu <;> simp at hu
    · subst hu
      exact hmemopt c1 (by rw [hoc]; simp)
    · rw [← hu]
      refine AllNodes.mk _ _ _ _ _ _ ⟨hb, hs, Or.inr (by simp [ONode.children])⟩ ?_
      intro c hc
      simp only [ONode.children] at hc
      exact hmemopt c (by rw [hoc]; exact hc)
    · rw [← hu]
      refine AllNodes.mk _ _ _ _ _ _ ⟨hb, hs, Or.inl hm⟩ ?_
      intro c hc
      simp only [ONode.children] at hc
      simp at hc
    · rw [← hu]
      refine AllNodes.mk _ _ _ _ _ _ ⟨hb, hs, Or.inl hm⟩ ?_
      intro c hc
      simp only [ONode.children] at hc
      exact hmemopt c (by rw [hoc]; exact hc)
    · rw [← hu]
      refine AllNodes.mk _ _ _ _ _ _ ⟨hb, hs, Or.inl hm⟩ ?_
      intro c hc
      simp only [ONode.children] at hc
      exact hmemopt c (by rw [hoc]; exact hc)

theorem optimizeNode_of_optIOS (u : ONode) (h : AllNodes optP u) : optimizeNode u = some u := by
  induction h with
  | mk name attrs children bounds vis inter hp hc ih =>
    simp only [optP, ONode.bounds, ONode.attributes, ONode.children] at hp
    obtain ⟨hb, hs, hm⟩ := hp
    have hfix : optimizeChildren children = children :=
      optimizeChildren_of_fixedIOS children (fun c hcm => ih c hcm)
    simp only [optimizeNode, hb, hs, hfix, Bool.false_eq_true, if_false]
    rcases hm with hm | hlen
    · rw [hm]
    · rcases children with _ | ⟨c1, _ | ⟨c2, cs⟩⟩
      · simp at hlen
      · simp at hlen
      · cases hasMeaningfulAttrs attrs <;> rfl

end IOS


/-- C5: optimization is idempotent on its own output (both platforms). -/
theorem optimizeNode_idempotent :
    (∀ t : Android.ONode,
      (Android.optimizeNode t).bind Android.optimizeNode = Android.optimizeNode t)
    ∧ (∀ t : IOS.ONode,
      (IOS.optimizeNode t).bind IOS.optimizeNode = IOS.optimizeNode t) := by
  constructor
  · intro t
    cases h : Android.optimizeNode t with
    | none => rfl
    | some u =>
      show Android.optimizeNode u = some u
      exact Android.optimizeNode_of_opt u (Android.optimizeNode_output_opt t u h)
  · intro t
    cases h : IOS.optimizeNode t with
    | none => rfl
    | some u =>
      show IOS.optimizeNode u = some u
      exact IOS.optimizeNode_of_optIOS u (IOS.optimizeNode_output_optIOS t u h)

/-- C3 (amended): every Android interactive element has defined positive
bounds; an iOS interactive element may lack bounds entirely, but whenever
it has bounds they are positive. -/
theorem interactive_elements_have_positive_bounds :
    (∀ (root : RawElement) (elems : List Android.ONode),
      Android.processPageSource root = .ok elems →
      ∀ e ∈ elems, ∃ b, e.bounds = some b ∧ 0 < b.width ∧ 0 < b.height)
    ∧ (∀ (root : RawElement) (elems : List IOS.ONode),
      IOS.processPageSource root = .ok elems →
      ∀ e ∈ elems, ∀ b, e.bounds = some b →
        IOS.jsGt0 b.width = true ∧ IOS.jsGt0 b.height = true) := by
  constructor
  · intro root elems hok e he
    rcases h : Android.optimizeNode (Android.elementToNode root) with _ | r
    · simp [Android.processPageSource, h] at hok
    · simp [Android.processPageSource, h] at hok
      subst hok
      have hall := Android.optimizeNode_preserves Android.visP
        (fun _ _ _ _ _ _ _ hp hv => hp hv) (Android.elementToNode root) r h
        (Android.elementToNode_visP root)
      have hvP := Android.extract_mem_pred Android.visP r e he hall
      have hcond := Android.extract_cond_of_mem r e he
      have hvis : e.isVisible = true := by
        unfold Android.extractCond at hcond
        rw [Bool.and_eq_true] at hcond
        exact hcond.2
      exact hvP hvis
  · intro root elems hok e he b hb
    rcases h : IOS.optimizeNode (IOS.elementToNode root) with _ | r
    · simp [IOS.processPageSource, h] at hok
    · simp [IOS.processPageSource, h] at hok
      subst hok
      have hall := IOS.optimizeNode_preservesIOS IOS.visP
        (fun _ _ _ _ _ _ _ hp hv => hp hv) (IOS.elementToNode root) r h
        (IOS.elementToNode_visPIOS root)
      have hvP := IOS.extract_mem_predIOS IOS.visP r e he hall
      have hcond := IOS.extract_cond_of_memIOS r e he
      have hvis : e.isVisible = true := by
        unfold IOS.extractCond at hcond
        rw [Bool.and_eq_true] at hcond
        exact hcond.2
      exact hvP hvis b hb

/-- Counterexample for C3 as stated: the iOS pipeline emits an interactive
element with no bounds at all when the element has no geometry attributes
(visibility then defaults to the visible attribute). -/
theorem ios_emits_element_without_bounds :
    IOS.processPageSource demoIOSNoBounds = .ok [demoIOSNoBoundsNode]
    ∧ demoIOSNoBoundsNode.bounds = none
    ∧ demoIOSNoBoundsNode.isInteractive = true :=
  ⟨rfl, rfl, rfl⟩

/-- Witness for C3 (amended): the demo trees produce elements whose bounds
are present and positive. -/
theorem interactive_elements_have_positive_bounds_witness :
    (∃ b, demoAndroidNode.bounds = some b ∧ 0 < b.width ∧ 0 < b.height)
    ∧ (IOS.jsGt0 (IOS.Bounds.mk (some 0) (some 0) (some 100) (some 200)).width = true
       ∧ IOS.jsGt0 (IOS.Bounds.mk (some 0) (some 0) (some 100) (some 200)).height = true) :=
  ⟨interactive_elements_have_positive_bounds.1 demoAndroidRoot [demoAndroidNode] rfl
      demoAndroidNode (by simp),
   interactive_elements_have_positive_bounds.2 demoIOSRoot [demoIOSNode] rfl
      demoIOSNode (by simp) (IOS.Bounds.mk (some 0) (some 0) (some 100) (some 200)) rfl⟩

/-- The first attribute entry found by lookup is an entry of the list. -/
theorem lookupAttr_mem (attrs : List (String × String)) (k v : String)
    (h : lookupAttr attrs k = some v) : (k, v) ∈ attrs := by
  unfold lookupAttr at h
  cases hf : attrs.find? (fun p => p.1 == k) with
  | none => rw [hf] at h; simp at h
  | some p =>
    rw [hf] at h
    simp at h
    have hp := List.find?_some hf
    have hm : p ∈ attrs := List.mem_of_find?_eq_some hf
    obtain ⟨p1, p2⟩ := p
    simp only [beq_iff_eq] at hp
    have h2 : p2 = v := h
    have h1 : p1 = k := hp
    subst h1
    subst h2
    exact hm

/-- C8 (amended): the Android optimizer discards status-bar and
navigation-bar nodes unconditionally, whatever other attributes they
carry; the iOS optimizer discards StatusBar-typed nodes unconditionally
(the name exception binds only to the NavigationBar disjunct) and discards
NavigationBar-typed nodes exactly when their name is falsy, preserving a
named NavigationBar that passes the geometry check. -/
theorem system_chrome_skip_rules :
    (∀ (name : String) (attrs : List (String × String)) (children : List Android.ONode)
       (bounds : Option Android.Bounds) (vis inter : Bool),
      Android.sysUISkip attrs = true →
      Android.optimizeNode (.mk name attrs children bounds vis inter) = none)
    ∧ (∀ (name : String) (attrs : List (String × String)) (children : List IOS.ONode)
        (bounds : Option IOS.Bounds) (vis inter : Bool) (ty : String),
        lookupAttr attrs "type" = some ty → strContains ty "StatusBar" = true →
        IOS.optimizeNode (.mk name attrs children bounds vis inter) = none)
    ∧ (∀ (name : String) (attrs : List (String × String)) (children : List IOS.ONode)
        (bounds : Option IOS.Bounds) (vis inter : Bool) (ty : String),
        lookupAttr attrs "type" = some ty → strContains ty "NavigationBar" = true →
        IOS.nameFalsy attrs = true →
        IOS.optimizeNode (.mk name attrs children bounds vis inter) = none)
    ∧ (∀ (name : String) (attrs : List (String × String)) (children : List IOS.ONode)
        (bounds : Option IOS.Bounds) (vis inter : Bool) (ty : String),
        lookupAttr attrs "type" = some ty →
        strContains ty "StatusBar" = false → strContains ty "NavigationBar" = true →
        IOS.nameFalsy attrs = false → IOS.boundsInvisible bounds = false →
        ∃ u, IOS.optimizeNode (.mk name attrs children bounds vis inter) = some u) := by
  refine ⟨?_, ?_, ?_, ?_⟩
  · intro name attrs children bounds vis inter hs
    simp only [Android.optimizeNode]
    cases hb : Android.boundsInvisible bounds <;> simp [hb, hs]
  · intro name attrs children bounds vis inter ty hlook hSB
    have htyne : (ty != "") = true := by
      by_cases h0 : ty = ""
      · subst h0; exact absurd hSB (by decide)
      · simp [h0]
    have hs : IOS.sysUISkip attrs = true := by
      simp [IOS.sysUISkip, hlook, htyne, hSB]
    simp only [IOS.optimizeNode]
    cases hb : IOS.boundsInvisible bounds <;> simp [hb, hs]
  · intro name attrs children bounds vis inter ty hlook hNB hNF
    have htyne : (ty != "") = true := by
      by_cases h0 : ty = ""
      · subst h0; exact absurd hNB (by decide)
      · simp [h0]
    have hs : IOS.sysUISkip attrs = true := by
      simp [IOS.sysUISkip, hlook, htyne, hNB, hNF]
    simp only [IOS.optimizeNode]
    cases hb : IOS.boundsInvisible bounds <;> simp [hb, hs]
  · intro name attrs children bounds vis inter ty hlook hSB hNB hNF hbounds
    have hpair := lookupAttr_mem attrs "type" ty hlook
    have htyne : ty ≠ "" := by
      intro h0; subst h0; exact absurd hNB (by decide)
    have htyf : ty ≠ "false" := by
      intro h0; subst h0; exact absurd hNB (by decide)
    have htyn : ty ≠ "null" := by
      intro h0; subst h0; exact absurd hNB (by decide)
    have hmean : IOS.hasMeaningfulAttrs attrs = true := by
      unfold IOS.hasMeaningfulAttrs
      rw [List.any_eq_true]
      exact ⟨("type", ty), hpair, by simp [htyne, htyf, htyn]⟩
    have hs : IOS.sysUISkip attrs = false := by
      simp [IOS.sysUISkip, hlook, hSB, hNF]
    simp only [IOS.optimizeNode, hbounds, hs, Bool.false_eq_true, if_false]
    rw [hmean]
    exact ⟨_, rfl⟩

/-- Counterexample for C8 as stated: an Android status-bar node with
user-meaningful text (and an iOS StatusBar with a name) is still
discarded. -/
theorem chrome_with_name_still_discarded :
    Android.optimizeNode demoStatusBarNode = none
    ∧ attrTruthy demoStatusBarNode.attributes "text" = true
    ∧ Android.hasMeaningfulAttrs demoStatusBarNode.attributes = true
    ∧ IOS.optimizeNode demoIOSStatusBar = none
    ∧ attrTruthy demoIOSStatusBar.attributes "name" = true :=
  ⟨rfl, rfl, rfl, rfl, rfl⟩

/-- Witness for C8 (amended): a navigation-bar resource id is dropped on
Android; on iOS a StatusBar is dropped, an unnamed NavigationBar is
dropped, and a named NavigationBar survives. -/
theorem system_chrome_skip_rules_witness :
    Android.optimizeNode demoNavBarNode = none
    ∧ IOS.optimizeNode demoIOSStatusBar = none
    ∧ IOS.optimizeNode demoIOSNavNoName = none
    ∧ ∃ u, IOS.optimizeNode demoIOSNavNamed = some u :=
  ⟨system_chrome_skip_rules.1 "node"
      [("resource-id", "com.android.systemui:id/navigation_bar_frame")] []
      (some ⟨0, 0, 10, 10⟩) true false rfl,
   system_chrome_skip_rules.2.1 "XCUIElementTypeStatusBar"
      [("type", "XCUIElementTypeStatusBar"), ("name", "StatusInfo")] [] none true false
      "XCUIElementTypeStatusBar" rfl rfl,
   system_chrome_skip_rules.2.2.1 "XCUIElementTypeNavigationBar"
      [("type", "XCUIElementTypeNavigationBar")] [] none true false
      "XCUIElementTypeNavigationBar" rfl rfl rfl,
   system_chrome_skip_rules.2.2.2 "XCUIElementTypeNavigationBar"
      [("type", "XCUIElementTypeNavigationBar"), ("name", "Back")] [] none true false
      "XCUIElementTypeNavigationBar" rfl rfl rfl rfl rfl⟩

end MobileUse
